import Mathlib

/-!
Verification of the cooperative fiber scheduler in `util/asio/io_context.cc`
(class `AsioScheduler` and its helpers).  The scheduler state and its
operations `awakened`, `pick_next`, `property_change`, `has_ready_fibers`,
`suspend_until` and `notify` are embedded shallowly below; machine integers
are modelled as `Nat` (none of the counters can overflow in the source:
they are 64-bit and only move by one per call), the intrusive ready queues
as Lean lists (head = front of the queue), and the one-shot reactor suspend
timer as a record holding its stored expiry and the number of pending
`async_wait` handlers.
-/

set_option autoImplicit false

namespace Gaia

/-- MAIN_NICE_LEVEL from io_context.cc: the nice level of the MainLoop fiber. -/
def MAIN_NICE_LEVEL : Nat := 0

/-- MAIN_SWITCH_LIMIT from io_context.cc: amount of fiber switches made before
bringing back the main IO loop. -/
def MAIN_SWITCH_LIMIT : Nat := 4

/-- Modelled from the spec: `IoFiberProperties::MAX_NICE_LEVEL`.  The header
declaring `IoFiberProperties` (io_context.h) is not under src/; the spec
describes a small band of worker nice levels `0..MAX_NICE` (four worker
levels `0..3` in its example), with the dispatcher in one extra queue slot
at index `MAX_NICE_LEVEL + 1`. -/
def MAX_NICE_LEVEL : Nat := 3

/-- Modelled from the spec: `IoFiberProperties::NUM_NICE_LEVELS`, the number
of worker ready queues; consistent with the source, which indexes the
dispatcher slot as `MAX_NICE_LEVEL + 1` in an array of size
`NUM_NICE_LEVELS + 1`. -/
def NUM_NICE_LEVELS : Nat := MAX_NICE_LEVEL + 1

/-- A fiber context.  The scheduler only ever inspects its identity and
whether it is the dispatcher context (`ctx->is_context(dispatcher_context)`),
so we model exactly that. -/
structure Fiber where
  fid : Nat
  dispatcher : Bool
deriving DecidableEq, Repr

/-- Per-fiber metadata relevant to scheduling: the nice level.  Modelled from
the spec for the missing header; `SetNiceLevel` clamps it into
`[0, MAX_NICE_LEVEL]`, so scheduler calls always see
`nice_level < NUM_NICE_LEVELS` (the DCHECK in `awakened`). -/
structure IoFiberProperties where
  nice_level : Nat
deriving DecidableEq, Repr

/-- The reactor steady timer owned by the scheduler: its stored expiry
(steady-clock ticks) and the number of pending `async_wait` handlers.
`expires_at` cancels every pending wait (each completes with
`operation_aborted`) and stores a new expiry. -/
structure SuspendTimer where
  expires : Nat
  pending : Nat
deriving DecidableEq, Repr

/-- The scheduler state of `AsioScheduler`.  `rqueue_arr` are the intrusive
ready queues (indices `0..MAX_NICE_LEVEL` workers, `MAX_NICE_LEVEL + 1`
dispatcher; list head is the queue front).  The two bits of `mask_`
(`LOOP_RUN_ONE`, `LOOP_SUSPEND`) are carried as the Booleans
`loop_run_one` and `loop_suspend`.  `suspend_timer = none` models the reset
`unique_ptr` after MainLoop exits.  `completions` logs timer handler
completions (`true` = with `operation_aborted`), `rearm_events` counts
`expires_at` calls, `cnd_signals` counts `cnd_.notify_one()` calls, and
`main_resumes` is the diagnostic counter of the same name. -/
structure AsioScheduler where
  rqueue_arr : Nat → List Fiber
  last_nice_level : Nat
  ready_cnt : Nat
  switch_cnt : Nat
  loop_run_one : Bool
  loop_suspend : Bool
  suspend_timer : Option SuspendTimer
  completions : List Bool
  rearm_events : Nat
  cnd_signals : Nat
  main_resumes : Nat

/-- Pointwise update of the queue array at one index. -/
def updq (f : Nat → List Fiber) (i : Nat) (q : List Fiber) : Nat → List Fiber :=
  fun j => if j = i then q else f j

/-- Concatenation of every ready queue (workers 0..3 and the dispatcher
slot 4); a fiber is linked iff it occurs here. -/
def allReady (s : AsioScheduler) : List Fiber :=
  s.rqueue_arr 0 ++ s.rqueue_arr 1 ++ s.rqueue_arr 2 ++ s.rqueue_arr 3 ++ s.rqueue_arr 4

/-- Total number of fibers linked in the worker queues `0..MAX_NICE_LEVEL`
(the dispatcher slot excluded). -/
def workerSum (s : AsioScheduler) : Nat :=
  (s.rqueue_arr 0).length + (s.rqueue_arr 1).length + (s.rqueue_arr 2).length +
    (s.rqueue_arr 3).length

/-- Number of occurrences of a fiber across all ready queues. -/
def countAll (s : AsioScheduler) (a : Fiber) : Nat :=
  (allReady s).count a

/-- `ctx->ready_is_linked()`: whether the context is linked in a ready queue. -/
def ready_is_linked (s : AsioScheduler) (ctx : Fiber) : Bool :=
  decide (ctx ∈ allReady s)

/-- `AsioScheduler::awakened` (io_context.cc:201-221): the dispatcher is
linked at the extra slot `MAX_NICE_LEVEL + 1`; a worker is linked at the
tail of the queue of its nice level, `ready_cnt_` is incremented and the
scan cursor `last_nice_level_` is lowered to the new level if above it. -/
def awakened (s : AsioScheduler) (ctx : Fiber) (props : IoFiberProperties) : AsioScheduler :=
  if ctx.dispatcher then
    let dq := s.rqueue_arr (MAX_NICE_LEVEL + 1) ++ [ctx]
    { s with rqueue_arr := updq s.rqueue_arr (MAX_NICE_LEVEL + 1) dq }
  else
    let nq := s.rqueue_arr props.nice_level ++ [ctx]
    let cursor :=
      if props.nice_level < s.last_nice_level then props.nice_level else s.last_nice_level
    { s with
      rqueue_arr := updq s.rqueue_arr props.nice_level nq,
      ready_cnt := s.ready_cnt + 1,
      last_nice_level := cursor }

/-- The state after the successful dequeue branch of `pick_next` when the
scan stopped at queue `m`: the cursor has been advanced to `m` (and no
further), the head of queue `m` is popped, `ready_cnt_` is decremented, and
under `LOOP_SUSPEND` the switch counter is bumped, signalling the condition
variable (and bumping `main_resumes`) once it exceeds MAIN_SWITCH_LIMIT. -/
def postPick (s : AsioScheduler) (m : Nat) : AsioScheduler :=
  let s1 : AsioScheduler :=
    { s with last_nice_level := m,
             rqueue_arr := updq s.rqueue_arr m (s.rqueue_arr m).tail,
             ready_cnt := s.ready_cnt - 1 }
  if s1.loop_suspend then
    let s3 := { s1 with switch_cnt := s1.switch_cnt + 1 }
    if MAIN_SWITCH_LIMIT < s3.switch_cnt then
      { s3 with cnd_signals := s3.cnd_signals + 1, main_resumes := s3.main_resumes + 1 }
    else s3
  else s1

/-- The scanning for-loop of `AsioScheduler::pick_next` (io_context.cc:228-271),
with `gas` the number of remaining iterations
(`NUM_NICE_LEVELS - last_nice_level_`).  An empty queue advances the cursor;
the first non-empty queue yields the successful-dequeue branch. -/
def pickLoop : AsioScheduler → Nat → Option Fiber × AsioScheduler
  | s, 0 => (none, s)
  | s, gas + 1 =>
    match s.rqueue_arr s.last_nice_level with
    | [] => pickLoop { s with last_nice_level := s.last_nice_level + 1 } gas
    | ctx :: _ => (some ctx, postPick s s.last_nice_level)

/-- `AsioScheduler::pick_next` (io_context.cc:223-289).  After an unsuccessful
scan the cursor sits at `NUM_NICE_LEVELS` and the dispatcher slot is tried:
the source reads `front()` but removes with `pop_back()`, which we model
verbatim (`head` is returned, `dropLast` removes). -/
def pick_next (s : AsioScheduler) : Option Fiber × AsioScheduler :=
  match pickLoop s (NUM_NICE_LEVELS - s.last_nice_level) with
  | (some ctx, s1) => (some ctx, s1)
  | (none, s1) =>
    match s1.rqueue_arr (MAX_NICE_LEVEL + 1) with
    | [] => (none, s1)
    | d :: _ =>
      let dq := (s1.rqueue_arr (MAX_NICE_LEVEL + 1)).dropLast
      (some d, { s1 with rqueue_arr := updq s1.rqueue_arr (MAX_NICE_LEVEL + 1) dq })

/-- `ctx->ready_unlink()`: remove the context from its ready queue.  An
intrusive hook links a context in at most one place, so removal is modelled
as erasing every occurrence. -/
def ready_unlink (s : AsioScheduler) (ctx : Fiber) : AsioScheduler :=
  { s with rqueue_arr := fun i => (s.rqueue_arr i).filter (fun f => decide (f ≠ ctx)) }

/-- `AsioScheduler::property_change` (io_context.cc:58-82): return if the
context is not linked; otherwise unlink it, decrement `ready_cnt_` unless it
is the dispatcher, and re-insert through `awakened` at the updated level. -/
def property_change (s : AsioScheduler) (ctx : Fiber) (props : IoFiberProperties) :
    AsioScheduler :=
  if ready_is_linked s ctx = false then s
  else
    let s1 := ready_unlink s ctx
    let s2 := if ctx.dispatcher then s1 else { s1 with ready_cnt := s1.ready_cnt - 1 }
    awakened s2 ctx props

/-- `AsioScheduler::has_ready_fibers`: `0 < ready_cnt_`. -/
def has_ready_fibers (s : AsioScheduler) : Bool :=
  decide (0 < s.ready_cnt)

/-- The timer-arming part of `suspend_until` (io_context.cc:98-118): for a
finite deadline, `expires_at(abs_time)` cancels every pending wait (each
completes with `operation_aborted`) and stores the new expiry, then
`async_wait` registers the yield-on-completion handler.  A deadline of
`time_point::max()` is modelled as `none` and arms nothing. -/
def armTimer (s : AsioScheduler) (abs_time : Option Nat) : AsioScheduler :=
  match abs_time, s.suspend_timer with
  | some t, some tm =>
    { s with suspend_timer := some { expires := t, pending := 1 },
             completions := s.completions ++ List.replicate tm.pending true,
             rearm_events := s.rearm_events + 1 }
  | _, _ => s

/-- `AsioScheduler::suspend_until` (io_context.cc:90-123): arm the timer for a
finite deadline, then `CHECK_EQ(0, mask_ & LOOP_RUN_ONE)` aborts the process
(`none`) if the RUN_ONE bit is set, else signal the condition variable. -/
def suspend_until (s : AsioScheduler) (abs_time : Option Nat) : Option AsioScheduler :=
  if (armTimer s abs_time).loop_run_one then none
  else some { armTimer s abs_time with cnd_signals := (armTimer s abs_time).cnd_signals + 1 }

/-- `AsioScheduler::notify` (io_context.cc:126-149): no-op once the suspend
timer has been released; otherwise `async_wait` first registers one more
handler against the current expiry, and `expires_at(now)` then cancels every
pending wait (all of them, including the one just registered, complete with
`operation_aborted`) and stores `now` as the expiry. -/
def notify (s : AsioScheduler) (now : Nat) : AsioScheduler :=
  match s.suspend_timer with
  | none => s
  | some tm =>
    { s with suspend_timer := some { expires := now, pending := 0 },
             completions := s.completions ++ List.replicate (tm.pending + 1) true,
             rearm_events := s.rearm_events + 1 }

/-- The freshly constructed scheduler: empty queues, zero counters, cleared
flags, and a default-constructed suspend timer (epoch expiry, no waits). -/
def initState : AsioScheduler :=
  { rqueue_arr := fun _ => [], last_nice_level := 0, ready_cnt := 0, switch_cnt := 0,
    loop_run_one := false, loop_suspend := false,
    suspend_timer := some { expires := 0, pending := 0 },
    completions := [], rearm_events := 0, cnd_signals := 0, main_resumes := 0 }

/-- One scheduler event: a scheduler callback (`awakened` with its DCHECK
preconditions, `pick_next`, `property_change`, `suspend_until` when it does
not abort, `notify`), a MainLoop mask transition (`WaitTillFibersSuspend`
entry and exit, the `run_one` bracket), or the post-loop timer release. -/
inductive Step : AsioScheduler → AsioScheduler → Prop where
  | awakened (s : AsioScheduler) (ctx : Fiber) (props : IoFiberProperties)
      (hnice : ctx.dispatcher = false → props.nice_level < NUM_NICE_LEVELS)
      (hfree : ready_is_linked s ctx = false) :
      Step s (awakened s ctx props)
  | pick (s : AsioScheduler) : Step s (pick_next s).2
  | prop_change (s : AsioScheduler) (ctx : Fiber) (props : IoFiberProperties)
      (hnice : ctx.dispatcher = false → props.nice_level < NUM_NICE_LEVELS) :
      Step s (property_change s ctx props)
  | wait_enter (s : AsioScheduler) : Step s { s with loop_suspend := true, switch_cnt := 0 }
  | wait_exit (s : AsioScheduler) : Step s { s with loop_suspend := false }
  | run_one_enter (s : AsioScheduler) : Step s { s with loop_run_one := true }
  | run_one_exit (s : AsioScheduler) : Step s { s with loop_run_one := false }
  | suspend (s s2 : AsioScheduler) (abs_time : Option Nat)
      (h : suspend_until s abs_time = some s2) : Step s s2
  | reactor_notify (s : AsioScheduler) (now : Nat) : Step s (notify s now)
  | timer_release (s : AsioScheduler) : Step s { s with suspend_timer := none }

/-- Scheduler states reachable from the freshly constructed scheduler. -/
inductive Reachable : AsioScheduler → Prop where
  | base : Reachable initState
  | step {s s2 : AsioScheduler} (hr : Reachable s) (hs : Step s s2) : Reachable s2

/-- Iterated `pick_next`, keeping only the state. -/
def pickSteps (s : AsioScheduler) : Nat → AsioScheduler
  | 0 => s
  | n + 1 => pickSteps (pick_next s).2 n

/-- The list of fibers returned by `n` consecutive `pick_next` calls. -/
def pickTrace (s : AsioScheduler) : Nat → List Fiber
  | 0 => []
  | n + 1 =>
    match pick_next s with
    | (some f, s2) => f :: pickTrace s2 n
    | (none, s2) => pickTrace s2 n

/-- Cursor write helper used to describe the unsuccessful scan. -/
def setLast (s : AsioScheduler) (n : Nat) : AsioScheduler :=
  { s with last_nice_level := n }

/-- The state after `pick_next` falls through to the dispatcher slot: the
scan left the cursor at `NUM_NICE_LEVELS` and the dispatcher queue was
popped with `pop_back`. -/
def postDispatch (s : AsioScheduler) : AsioScheduler :=
  { s with last_nice_level := NUM_NICE_LEVELS,
           rqueue_arr := updq s.rqueue_arr (MAX_NICE_LEVEL + 1)
             ((s.rqueue_arr (MAX_NICE_LEVEL + 1)).dropLast) }

/-- The well-formedness invariant of reachable scheduler states:
`ready_cnt_` counts the linked workers, the scan cursor never points past an
occupied worker level, each context is linked at most once, worker queues
hold only worker contexts and the dispatcher slot only the dispatcher. -/
def Inv (s : AsioScheduler) : Prop :=
  s.ready_cnt = workerSum s
  ∧ s.last_nice_level ≤ NUM_NICE_LEVELS
  ∧ (∀ i, i < s.last_nice_level → s.rqueue_arr i = [])
  ∧ (allReady s).Nodup
  ∧ (∀ i, i < NUM_NICE_LEVELS → ∀ f, f ∈ s.rqueue_arr i → f.dispatcher = false)
  ∧ (∀ f, f ∈ s.rqueue_arr NUM_NICE_LEVELS → f.dispatcher = true)

instance decidableInv (s : AsioScheduler) : Decidable (Inv s) := by
  unfold Inv; exact inferInstance

/-- Phase of the MainLoop fiber (io_context.cc:159-199): at the top of the
while loop, parked inside `WaitTillFibersSuspend`, blocked inside
`run_one`, or exited. -/
inductive LoopPhase where
  | top
  | inWait
  | inRunOne
  | finished
deriving DecidableEq, Repr

/-- MainLoop phase together with the two `mask_` bits it drives. -/
structure LoopState where
  phase : LoopPhase
  run_one : Bool
  suspend : Bool
deriving DecidableEq, Repr

/-- The MainLoop control flow as a step relation on its phase and the mask
bits: `WaitTillFibersSuspend` sets LOOP_SUSPEND on entry and clears it on
wake; the `run_one` bracket sets LOOP_RUN_ONE before blocking and clears it
after, leaving the loop when `run_one` returned zero or the reactor
stopped. -/
inductive LoopStep : LoopState → LoopState → Prop where
  | enterWait (r s : Bool) : LoopStep ⟨.top, r, s⟩ ⟨.inWait, r, true⟩
  | exitWait (r s : Bool) : LoopStep ⟨.inWait, r, s⟩ ⟨.top, r, false⟩
  | enterRunOne (r s : Bool) : LoopStep ⟨.top, r, s⟩ ⟨.inRunOne, true, s⟩
  | exitRunOneAgain (r s : Bool) : LoopStep ⟨.inRunOne, r, s⟩ ⟨.top, false, s⟩
  | exitRunOneDone (r s : Bool) : LoopStep ⟨.inRunOne, r, s⟩ ⟨.finished, false, s⟩
  | exitLoop (r s : Bool) : LoopStep ⟨.top, r, s⟩ ⟨.finished, r, s⟩

/-- MainLoop entry: top of the loop, both mask bits clear. -/
def loopInit : LoopState := ⟨.top, false, false⟩

/-- MainLoop states reachable from entry. -/
inductive LoopReachable : LoopState → Prop where
  | base : LoopReachable loopInit
  | step {l l2 : LoopState} (hr : LoopReachable l) (hs : LoopStep l l2) : LoopReachable l2

/-- Concrete worker fiber used in counterexamples and witnesses. -/
def wrk : Nat → Fiber := fun n => ⟨n, false⟩

/-- Concrete properties record at a given nice level. -/
def propsAt : Nat → IoFiberProperties := fun n => ⟨n⟩

/-- A dispatcher context. -/
def dctx : Fiber := ⟨9, true⟩

/-- Scheduler state after awakening one worker at nice level 2 and draining
it with `pick_next`: `ready_cnt_` is back to zero but the scan cursor was
left at 2. -/
def c5cex : AsioScheduler := (pick_next (awakened initState (wrk 0) (propsAt 2))).2

/-- A scheduler whose suspend timer stores expiry 5 with one pending wait,
as left by a `suspend_until(5)` call. -/
def c9state : AsioScheduler := { initState with suspend_timer := some ⟨5, 1⟩ }

/-- Five ready workers at level 0 with MainLoop parked (LOOP_SUSPEND set,
switch counter freshly reset). -/
def c7state : AsioScheduler :=
  { (awakened (awakened (awakened (awakened (awakened initState
        (wrk 0) (propsAt 0)) (wrk 1) (propsAt 0)) (wrk 2) (propsAt 0))
        (wrk 3) (propsAt 0)) (wrk 4) (propsAt 0)) with loop_suspend := true }

theorem MAX_NICE_LEVEL_eq : MAX_NICE_LEVEL = 3 := rfl

theorem NUM_NICE_LEVELS_eq : NUM_NICE_LEVELS = 4 := rfl

theorem MAIN_SWITCH_LIMIT_eq : MAIN_SWITCH_LIMIT = 4 := rfl

theorem updq_apply_self (f : Nat → List Fiber) (i : Nat) (q : List Fiber) :
    updq f i q i = q := by
  simp [updq]

theorem updq_apply_ne (f : Nat → List Fiber) (i j : Nat) (q : List Fiber) (h : j ≠ i) :
    updq f i q j = f j := by
  simp [updq, h]

theorem length_filter_ne_add_count (l : List Fiber) (x : Fiber) :
    (l.filter (fun f => decide (f ≠ x))).length + l.count x = l.length := by
  induction l with
  | nil => simp
  | cons a t ih =>
    by_cases h : a = x <;>
      simp [List.filter_cons, List.count_cons, h] at ih ⊢ <;> omega

theorem count_filter_ne (l : List Fiber) (x a : Fiber) :
    (l.filter (fun f => decide (f ≠ x))).count a = if a = x then 0 else l.count a := by
  induction l with
  | nil => simp
  | cons b t ih =>
    by_cases hbx : b = x <;> by_cases hax : a = x <;>
      simp [List.filter_cons, List.count_cons, hbx, hax] at ih ⊢ <;>
      simp [ih, List.count_cons]

theorem ready_is_linked_true_iff (s : AsioScheduler) (ctx : Fiber) :
    ready_is_linked s ctx = true ↔ ctx ∈ allReady s := by
  simp [ready_is_linked]

theorem ready_is_linked_false_iff (s : AsioScheduler) (ctx : Fiber) :
    ready_is_linked s ctx = false ↔ ctx ∉ allReady s := by
  simp [ready_is_linked]

theorem countAll_split (s : AsioScheduler) (a : Fiber) :
    countAll s a = (s.rqueue_arr 0).count a + (s.rqueue_arr 1).count a +
      (s.rqueue_arr 2).count a + (s.rqueue_arr 3).count a + (s.rqueue_arr 4).count a := by
  simp [countAll, allReady, List.count_append]
  omega

theorem countAll_pos_iff (s : AsioScheduler) (a : Fiber) :
    0 < countAll s a ↔ a ∈ allReady s := by
  simp only [countAll]
  exact List.count_pos_iff

theorem countAll_eq_zero_iff (s : AsioScheduler) (a : Fiber) :
    countAll s a = 0 ↔ a ∉ allReady s := by
  simp only [countAll]
  exact List.count_eq_zero

theorem awakened_disp (s : AsioScheduler) (ctx : Fiber) (props : IoFiberProperties)
    (h : ctx.dispatcher = true) :
    awakened s ctx props =
      { s with rqueue_arr := updq s.rqueue_arr 4 (s.rqueue_arr 4 ++ [ctx]) } := by
  simp [awakened, h]
  rfl

theorem awakened_worker (s : AsioScheduler) (ctx : Fiber) (props : IoFiberProperties)
    (h : ctx.dispatcher = false) :
    awakened s ctx props =
      { s with
        rqueue_arr := updq s.rqueue_arr props.nice_level
          (s.rqueue_arr props.nice_level ++ [ctx]),
        ready_cnt := s.ready_cnt + 1,
        last_nice_level :=
          if props.nice_level < s.last_nice_level then props.nice_level
          else s.last_nice_level } := by
  simp [awakened, h]

theorem countAll_awakened (s : AsioScheduler) (ctx : Fiber) (props : IoFiberProperties)
    (a : Fiber) (hnice : ctx.dispatcher = false → props.nice_level < NUM_NICE_LEVELS) :
    countAll (awakened s ctx props) a = countAll s a + (if a = ctx then 1 else 0) := by
  by_cases hd : ctx.dispatcher = true
  · rw [awakened_disp s ctx props hd]
    by_cases hax : a = ctx <;>
      simp [countAll_split, updq, List.count_append, List.count_cons, hax] <;> omega
  · have hdf : ctx.dispatcher = false := by simpa using hd
    have h4 : props.nice_level < 4 := by
      simpa [NUM_NICE_LEVELS_eq] using hnice hdf
    rw [awakened_worker s ctx props hdf]
    generalize props.nice_level = n at h4 ⊢
    interval_cases n <;> by_cases hax : a = ctx <;>
      simp [countAll_split, updq, List.count_append, List.count_cons, hax] <;> omega

theorem linked_awakened_false (s : AsioScheduler) (ctx b : Fiber) (props : IoFiberProperties)
    (hnice : ctx.dispatcher = false → props.nice_level < NUM_NICE_LEVELS)
    (hb : ready_is_linked s b = false) (hbc : b ≠ ctx) :
    ready_is_linked (awakened s ctx props) b = false := by
  rw [ready_is_linked_false_iff, ← countAll_eq_zero_iff]
  rw [countAll_awakened s ctx props b hnice, if_neg hbc]
  rw [ready_is_linked_false_iff, ← countAll_eq_zero_iff] at hb
  omega

theorem workerSum_awakened_disp (s : AsioScheduler) (ctx : Fiber) (props : IoFiberProperties)
    (hd : ctx.dispatcher = true) :
    workerSum (awakened s ctx props) = workerSum s := by
  rw [awakened_disp s ctx props hd]
  simp [workerSum, updq]

theorem workerSum_awakened_worker (s : AsioScheduler) (ctx : Fiber)
    (props : IoFiberProperties) (hd : ctx.dispatcher = false)
    (h4 : props.nice_level < NUM_NICE_LEVELS) :
    workerSum (awakened s ctx props) = workerSum s + 1 := by
  rw [awakened_worker s ctx props hd]
  rw [NUM_NICE_LEVELS_eq] at h4
  generalize props.nice_level = n at h4 ⊢
  interval_cases n <;> simp [workerSum, updq] <;> omega

theorem Inv_awakened (s : AsioScheduler) (ctx : Fiber) (props : IoFiberProperties)
    (hInv : Inv s)
    (hnice : ctx.dispatcher = false → props.nice_level < NUM_NICE_LEVELS)
    (hfree : ready_is_linked s ctx = false) :
    Inv (awakened s ctx props) := by
  obtain ⟨hcnt, hle, hcur, hnd, hwk, hdq⟩ := hInv
  have hnodup : (allReady (awakened s ctx props)).Nodup := by
    rw [List.nodup_iff_count_le_one]
    intro a
    show countAll (awakened s ctx props) a ≤ 1
    rw [countAll_awakened s ctx props a hnice]
    by_cases hax : a = ctx
    · subst hax
      have h0 : countAll s a = 0 := by
        rw [countAll_eq_zero_iff]
        exact (ready_is_linked_false_iff s a).mp hfree
      simp [h0]
    · have h1 : countAll s a ≤ 1 := List.nodup_iff_count_le_one.mp hnd a
      simp [hax]
      omega
  by_cases hd : ctx.dispatcher = true
  · rw [awakened_disp s ctx props hd] at hnodup ⊢
    refine ⟨?_, ?_, ?_, hnodup, ?_, ?_⟩
    · simpa [workerSum, updq] using hcnt
    · exact hle
    · intro i hi
      dsimp only at hi ⊢
      rw [NUM_NICE_LEVELS_eq] at hle
      rw [updq_apply_ne _ _ _ _ (by omega)]
      exact hcur i hi
    · intro i hi f hf
      rw [NUM_NICE_LEVELS_eq] at hi
      dsimp only at hf
      rw [updq_apply_ne _ _ _ _ (by omega)] at hf
      exact hwk i (by rw [NUM_NICE_LEVELS_eq]; omega) f hf
    · intro f hf
      rw [NUM_NICE_LEVELS_eq] at hf
      dsimp only at hf
      rw [updq_apply_self] at hf
      rcases List.mem_append.mp hf with h | h
      · exact hdq f (by rw [NUM_NICE_LEVELS_eq]; exact h)
      · simp at h
        subst h
        exact hd
  · have hdf : ctx.dispatcher = false := by simpa using hd
    have h4 : props.nice_level < 4 := by
      simpa [NUM_NICE_LEVELS_eq] using hnice hdf
    rw [awakened_worker s ctx props hdf] at hnodup ⊢
    refine ⟨?_, ?_, ?_, hnodup, ?_, ?_⟩
    · have hws : workerSum (awakened s ctx props) = workerSum s + 1 :=
        workerSum_awakened_worker s ctx props hdf (by rw [NUM_NICE_LEVELS_eq]; omega)
      rw [awakened_worker s ctx props hdf] at hws
      dsimp only
      rw [hws, hcnt]
    · dsimp only
      rw [NUM_NICE_LEVELS_eq] at hle ⊢
      split <;> omega
    · intro i hi
      dsimp only at hi ⊢
      rcases lt_or_ge props.nice_level s.last_nice_level with hlt | hge
      · rw [if_pos hlt] at hi
        rw [updq_apply_ne _ _ _ _ (by omega)]
        exact hcur i (by omega)
      · rw [if_neg (by omega)] at hi
        rw [updq_apply_ne _ _ _ _ (by omega)]
        exact hcur i hi
    · intro i hi f hf
      dsimp only at hf
      by_cases hin : i = props.nice_level
      · subst hin
        rw [updq_apply_self] at hf
        rcases List.mem_append.mp hf with h | h
        · exact hwk _ hi f h
        · simp at h
          subst h
          exact hdf
      · rw [updq_apply_ne _ _ _ _ hin] at hf
        exact hwk i hi f hf
    · intro f hf
      rw [NUM_NICE_LEVELS_eq] at hf
      dsimp only at hf
      rw [updq_apply_ne _ _ _ _ (by omega)] at hf
      exact hdq f (by rw [NUM_NICE_LEVELS_eq]; exact hf)

theorem pickLoop_skip_empty (gas : Nat) (s : AsioScheduler)
    (h : s.rqueue_arr s.last_nice_level = []) :
    pickLoop s (gas + 1) =
      pickLoop { s with last_nice_level := s.last_nice_level + 1 } gas := by
  simp [pickLoop, h]

theorem pickLoop_found_here (gas : Nat) (s : AsioScheduler) (hd : Fiber) (tl : List Fiber)
    (h : s.rqueue_arr s.last_nice_level = hd :: tl) :
    pickLoop s (gas + 1) = (some hd, postPick s s.last_nice_level) := by
  simp [pickLoop, h]

theorem postPick_setLast (s : AsioScheduler) (n m : Nat) :
    postPick { s with last_nice_level := n } m = postPick s m := rfl

theorem pickLoop_found (gas : Nat) : ∀ (s : AsioScheduler) (m : Nat),
    s.last_nice_level + gas = NUM_NICE_LEVELS → s.last_nice_level ≤ m →
    m < NUM_NICE_LEVELS →
    (∀ j, s.last_nice_level ≤ j → j < m → s.rqueue_arr j = []) →
    ∀ hd tl, s.rqueue_arr m = hd :: tl →
    pickLoop s gas = (some hd, postPick s m) := by
  induction gas with
  | zero =>
    intro s m h1 h2 h3 _ hd tl _
    rw [NUM_NICE_LEVELS_eq] at h1 h3
    exfalso
    omega
  | succ g ih =>
    intro s m h1 h2 h3 hemp hd tl hq
    rcases Nat.eq_or_lt_of_le h2 with heq | hlt
    · rw [pickLoop_found_here g s hd tl (by rw [heq]; exact hq), heq]
    · have hnil : s.rqueue_arr s.last_nice_level = [] :=
        hemp s.last_nice_level (Nat.le_refl _) hlt
      rw [pickLoop_skip_empty g s hnil]
      have := ih { s with last_nice_level := s.last_nice_level + 1 } m
        (by dsimp only; omega) (by dsimp only; omega) h3
        (by intro j hj1 hj2; exact hemp j (by dsimp only at hj1; omega) hj2) hd tl hq
      rw [this, postPick_setLast]

theorem pickLoop_none (gas : Nat) : ∀ (s : AsioScheduler),
    (∀ j, s.last_nice_level ≤ j → j < s.last_nice_level + gas → s.rqueue_arr j = []) →
    pickLoop s gas = (none, setLast s (s.last_nice_level + gas)) := by
  induction gas with
  | zero => intro s _; rfl
  | succ g ih =>
    intro s hemp
    have hnil : s.rqueue_arr s.last_nice_level = [] :=
      hemp s.last_nice_level (Nat.le_refl _) (by omega)
    rw [pickLoop_skip_empty g s hnil]
    have := ih { s with last_nice_level := s.last_nice_level + 1 }
      (by intro j hj1 hj2; dsimp only at hj1 hj2; exact hemp j (by omega) (by omega))
    rw [this]
    have harith : s.last_nice_level + 1 + g = s.last_nice_level + (g + 1) := by omega
    dsimp only
    rw [harith]
    rfl

theorem pick_next_found (s : AsioScheduler) (m : Nat)
    (hcur : ∀ i, i < s.last_nice_level → s.rqueue_arr i = [])
    (hm : m < NUM_NICE_LEVELS)
    (hmin : ∀ j, j < m → s.rqueue_arr j = [])
    (hd : Fiber) (tl : List Fiber) (hq : s.rqueue_arr m = hd :: tl) :
    pick_next s = (some hd, postPick s m) := by
  have hlm : s.last_nice_level ≤ m := by
    by_contra hc
    push_neg at hc
    rw [hcur m hc] at hq
    exact List.noConfusion hq
  have hgas : s.last_nice_level + (NUM_NICE_LEVELS - s.last_nice_level) = NUM_NICE_LEVELS := by
    rw [NUM_NICE_LEVELS_eq] at *
    omega
  have hf := pickLoop_found (NUM_NICE_LEVELS - s.last_nice_level) s m hgas hlm hm
    (fun j _ hj => hmin j hj) hd tl hq
  unfold pick_next
  rw [hf]

theorem pick_next_idle (s : AsioScheduler)
    (hall : ∀ i, i < NUM_NICE_LEVELS → s.rqueue_arr i = [])
    (hle : s.last_nice_level ≤ NUM_NICE_LEVELS)
    (hdq : s.rqueue_arr (MAX_NICE_LEVEL + 1) = []) :
    pick_next s = (none, setLast s NUM_NICE_LEVELS) := by
  have hgas : s.last_nice_level + (NUM_NICE_LEVELS - s.last_nice_level) = NUM_NICE_LEVELS := by
    rw [NUM_NICE_LEVELS_eq] at *
    omega
  have hn := pickLoop_none (NUM_NICE_LEVELS - s.last_nice_level) s
    (by intro j hj1 hj2; rw [hgas] at hj2; exact hall j hj2)
  rw [hgas] at hn
  unfold pick_next
  rw [hn]
  have : (setLast s NUM_NICE_LEVELS).rqueue_arr (MAX_NICE_LEVEL + 1) = [] := hdq
  simp only [setLast] at this ⊢
  rw [this]

theorem pick_next_dispatcher (s : AsioScheduler)
    (hall : ∀ i, i < NUM_NICE_LEVELS → s.rqueue_arr i = [])
    (hle : s.last_nice_level ≤ NUM_NICE_LEVELS)
    (d : Fiber) (rest : List Fiber) (hdq : s.rqueue_arr (MAX_NICE_LEVEL + 1) = d :: rest) :
    pick_next s = (some d, postDispatch s) := by
  have hgas : s.last_nice_level + (NUM_NICE_LEVELS - s.last_nice_level) = NUM_NICE_LEVELS := by
    rw [NUM_NICE_LEVELS_eq] at *
    omega
  have hn := pickLoop_none (NUM_NICE_LEVELS - s.last_nice_level) s
    (by intro j hj1 hj2; rw [hgas] at hj2; exact hall j hj2)
  rw [hgas] at hn
  unfold pick_next
  rw [hn]
  have hq2 : (setLast s NUM_NICE_LEVELS).rqueue_arr (MAX_NICE_LEVEL + 1) = d :: rest := hdq
  simp only [setLast] at hq2 ⊢
  rw [hq2]
  unfold postDispatch
  rw [hq2]

theorem postPick_rqueue_arr (s : AsioScheduler) (m : Nat) :
    (postPick s m).rqueue_arr = updq s.rqueue_arr m (s.rqueue_arr m).tail := by
  unfold postPick
  dsimp only
  split_ifs <;> rfl

theorem postPick_ready_cnt (s : AsioScheduler) (m : Nat) :
    (postPick s m).ready_cnt = s.ready_cnt - 1 := by
  unfold postPick
  dsimp only
  split_ifs <;> rfl

theorem postPick_last (s : AsioScheduler) (m : Nat) :
    (postPick s m).last_nice_level = m := by
  unfold postPick
  dsimp only
  split_ifs <;> rfl

theorem postPick_loop_suspend (s : AsioScheduler) (m : Nat) :
    (postPick s m).loop_suspend = s.loop_suspend := by
  unfold postPick
  dsimp only
  split_ifs <;> rfl

theorem postPick_loop_run_one (s : AsioScheduler) (m : Nat) :
    (postPick s m).loop_run_one = s.loop_run_one := by
  unfold postPick
  dsimp only
  split_ifs <;> rfl

theorem postPick_switch_cnt (s : AsioScheduler) (m : Nat) :
    (postPick s m).switch_cnt =
      if s.loop_suspend = true then s.switch_cnt + 1 else s.switch_cnt := by
  unfold postPick
  dsimp only
  by_cases hs : s.loop_suspend = true <;> simp [hs] <;> split_ifs <;> rfl

theorem postPick_cnd_signals (s : AsioScheduler) (m : Nat) :
    (postPick s m).cnd_signals =
      if s.loop_suspend = true ∧ MAIN_SWITCH_LIMIT < s.switch_cnt + 1 then
        s.cnd_signals + 1
      else s.cnd_signals := by
  unfold postPick
  dsimp only
  by_cases hs : s.loop_suspend = true <;>
    by_cases hl : MAIN_SWITCH_LIMIT < s.switch_cnt + 1 <;> simp [hs, hl]

theorem postPick_main_resumes (s : AsioScheduler) (m : Nat) :
    (postPick s m).main_resumes =
      if s.loop_suspend = true ∧ MAIN_SWITCH_LIMIT < s.switch_cnt + 1 then
        s.main_resumes + 1
      else s.main_resumes := by
  unfold postPick
  dsimp only
  by_cases hs : s.loop_suspend = true <;>
    by_cases hl : MAIN_SWITCH_LIMIT < s.switch_cnt + 1 <;> simp [hs, hl]

theorem workerSum_postPick (s : AsioScheduler) (m : Nat) (hm : m < NUM_NICE_LEVELS)
    (hd : Fiber) (tl : List Fiber) (hq : s.rqueue_arr m = hd :: tl) :
    workerSum (postPick s m) + 1 = workerSum s := by
  have hr := postPick_rqueue_arr s m
  rw [NUM_NICE_LEVELS_eq] at hm
  simp only [workerSum, hr]
  interval_cases m <;> simp [updq, hq] <;> omega

theorem allReady_postPick_sublist (s : AsioScheduler) (m : Nat) (hm : m < NUM_NICE_LEVELS) :
    List.Sublist (allReady (postPick s m)) (allReady s) := by
  have hr := postPick_rqueue_arr s m
  rw [NUM_NICE_LEVELS_eq] at hm
  simp only [allReady, hr]
  interval_cases m <;> simp [updq] <;> exact List.tail_sublist _

theorem exists_min_nonempty (s : AsioScheduler)
    (hex : ∃ i, i < NUM_NICE_LEVELS ∧ s.rqueue_arr i ≠ []) :
    ∃ m, m < NUM_NICE_LEVELS ∧ s.rqueue_arr m ≠ [] ∧ ∀ j, j < m → s.rqueue_arr j = [] := by
  obtain ⟨i, hi, hne⟩ := hex
  have hP : ∃ k, s.rqueue_arr k ≠ [] := ⟨i, hne⟩
  refine ⟨Nat.find hP, ?_, Nat.find_spec hP, ?_⟩
  · exact Nat.lt_of_le_of_lt (Nat.find_min' hP hne) hi
  · intro j hj
    exact not_not.mp (Nat.find_min hP hj)

theorem Inv_postPick (s : AsioScheduler) (m : Nat) (hInv : Inv s)
    (hm : m < NUM_NICE_LEVELS) (hmin : ∀ j, j < m → s.rqueue_arr j = [])
    (hd : Fiber) (tl : List Fiber) (hq : s.rqueue_arr m = hd :: tl) :
    Inv (postPick s m) := by
  obtain ⟨hcnt, hle, hcur, hnd, hwk, hdq⟩ := hInv
  have hws := workerSum_postPick s m hm hd tl hq
  refine ⟨?_, ?_, ?_, ?_, ?_, ?_⟩
  · rw [postPick_ready_cnt]
    omega
  · rw [postPick_last]
    rw [NUM_NICE_LEVELS_eq] at *
    omega
  · intro i hi
    rw [postPick_last] at hi
    rw [postPick_rqueue_arr, updq_apply_ne _ _ _ _ (by omega)]
    exact hmin i hi
  · exact (allReady_postPick_sublist s m hm).nodup hnd
  · intro i hi f hf
    rw [postPick_rqueue_arr] at hf
    by_cases him : i = m
    · subst him
      rw [updq_apply_self] at hf
      exact hwk i hi f (List.mem_of_mem_tail hf)
    · rw [updq_apply_ne _ _ _ _ him] at hf
      exact hwk i hi f hf
  · intro f hf
    rw [postPick_rqueue_arr] at hf
    rw [NUM_NICE_LEVELS_eq] at *
    rw [updq_apply_ne _ _ _ _ (by omega)] at hf
    exact hdq f hf

theorem Inv_pick_next (s : AsioScheduler) (hInv : Inv s) : Inv (pick_next s).2 := by
  by_cases hex : ∃ i, i < NUM_NICE_LEVELS ∧ s.rqueue_arr i ≠ []
  · obtain ⟨m, hm, hne, hmin⟩ := exists_min_nonempty s hex
    obtain ⟨hd, tl, hq⟩ := List.exists_cons_of_ne_nil hne
    rw [pick_next_found s m hInv.2.2.1 hm hmin hd tl hq]
    exact Inv_postPick s m hInv hm hmin hd tl hq
  · push_neg at hex
    obtain ⟨hcnt, hle, hcur, hnd, hwk, hdq⟩ := hInv
    rcases hq4 : s.rqueue_arr (MAX_NICE_LEVEL + 1) with _ | ⟨d, rest⟩
    · rw [pick_next_idle s hex hle hq4]
      refine ⟨hcnt, ?_, ?_, hnd, hwk, hdq⟩
      · simp [setLast]
      · intro i hi
        simp only [setLast] at hi ⊢
        exact hex i hi
    · rw [pick_next_dispatcher s hex hle d rest hq4]
      refine ⟨?_, ?_, ?_, ?_, ?_, ?_⟩
      · simp only [postDispatch, MAX_NICE_LEVEL_eq]
        simpa [workerSum, updq] using hcnt
      · simp [postDispatch]
      · intro i hi
        simp only [postDispatch, NUM_NICE_LEVELS_eq, MAX_NICE_LEVEL_eq] at hi ⊢
        rw [updq_apply_ne _ _ _ _ (by omega)]
        exact hex i (by rw [NUM_NICE_LEVELS_eq]; omega)
      · have hsub : List.Sublist (allReady (postDispatch s)) (allReady s) := by
          simp only [allReady, postDispatch, MAX_NICE_LEVEL_eq, updq]
          norm_num
          exact List.dropLast_sublist _
        exact hsub.nodup hnd
      · intro i hi f hf
        simp only [postDispatch, NUM_NICE_LEVELS_eq, MAX_NICE_LEVEL_eq] at hi hf
        rw [updq_apply_ne _ _ _ _ (by omega)] at hf
        exact hwk i (by rw [NUM_NICE_LEVELS_eq]; omega) f hf
      · intro f hf
        simp only [postDispatch, NUM_NICE_LEVELS_eq, MAX_NICE_LEVEL_eq] at hf
        rw [updq_apply_self] at hf
        exact hdq f (by rw [NUM_NICE_LEVELS_eq]; exact List.mem_of_mem_dropLast hf)

theorem unlink_rqueue (s : AsioScheduler) (ctx : Fiber) (i : Nat) :
    (ready_unlink s ctx).rqueue_arr i =
      (s.rqueue_arr i).filter (fun f => decide (f ≠ ctx)) := rfl

theorem countAll_unlink (s : AsioScheduler) (ctx a : Fiber) :
    countAll (ready_unlink s ctx) a = if a = ctx then 0 else countAll s a := by
  simp only [countAll_split, unlink_rqueue, count_filter_ne]
  by_cases hax : a = ctx <;> simp [hax]

theorem workerSum_unlink_add (s : AsioScheduler) (ctx : Fiber) :
    workerSum (ready_unlink s ctx) + ((s.rqueue_arr 0).count ctx +
      (s.rqueue_arr 1).count ctx + (s.rqueue_arr 2).count ctx +
      (s.rqueue_arr 3).count ctx) = workerSum s := by
  simp only [workerSum, unlink_rqueue]
  have h0 := length_filter_ne_add_count (s.rqueue_arr 0) ctx
  have h1 := length_filter_ne_add_count (s.rqueue_arr 1) ctx
  have h2 := length_filter_ne_add_count (s.rqueue_arr 2) ctx
  have h3 := length_filter_ne_add_count (s.rqueue_arr 3) ctx
  omega

theorem allReady_unlink_sublist (s : AsioScheduler) (ctx : Fiber) :
    List.Sublist (allReady (ready_unlink s ctx)) (allReady s) := by
  simp only [allReady, unlink_rqueue]
  exact ((((List.filter_sublist _).append (List.filter_sublist _)).append
    (List.filter_sublist _)).append (List.filter_sublist _)).append (List.filter_sublist _)

theorem countAll_one_of_linked (s : AsioScheduler) (ctx : Fiber) (hnd : (allReady s).Nodup)
    (hlink : ready_is_linked s ctx = true) : countAll s ctx = 1 := by
  have h1 : countAll s ctx ≤ 1 := List.nodup_iff_count_le_one.mp hnd ctx
  have h2 : 0 < countAll s ctx :=
    (countAll_pos_iff s ctx).mpr ((ready_is_linked_true_iff s ctx).mp hlink)
  omega

theorem countAll_congr (s s2 : AsioScheduler) (hq : s2.rqueue_arr = s.rqueue_arr)
    (a : Fiber) : countAll s2 a = countAll s a := by
  simp [countAll, allReady, hq]

theorem Inv_property_change (s : AsioScheduler) (ctx : Fiber) (props : IoFiberProperties)
    (hInv : Inv s)
    (hnice : ctx.dispatcher = false → props.nice_level < NUM_NICE_LEVELS) :
    Inv (property_change s ctx props) := by
  by_cases hlink : ready_is_linked s ctx = false
  · simpa [property_change, hlink] using hInv
  · have hlinked : ready_is_linked s ctx = true := by
      revert hlink
      cases ready_is_linked s ctx <;> simp
    obtain ⟨hcnt, hle, hcur, hnd, hwk, hdq⟩ := hInv
    have hct1 : countAll s ctx = 1 := countAll_one_of_linked s ctx hnd hlinked
    have hcur1 : ∀ i, i < (ready_unlink s ctx).last_nice_level →
        (ready_unlink s ctx).rqueue_arr i = [] := by
      intro i hi
      rw [unlink_rqueue, hcur i hi]
      rfl
    have hnd1 : (allReady (ready_unlink s ctx)).Nodup :=
      (allReady_unlink_sublist s ctx).nodup hnd
    have hwk1 : ∀ i, i < NUM_NICE_LEVELS → ∀ f, f ∈ (ready_unlink s ctx).rqueue_arr i →
        f.dispatcher = false := by
      intro i hi f hf
      rw [unlink_rqueue] at hf
      exact hwk i hi f (List.mem_filter.mp hf).1
    have hdq1 : ∀ f, f ∈ (ready_unlink s ctx).rqueue_arr NUM_NICE_LEVELS →
        f.dispatcher = true := by
      intro f hf
      rw [unlink_rqueue] at hf
      exact hdq f (List.mem_filter.mp hf).1
    have hfree1 : ready_is_linked (ready_unlink s ctx) ctx = false := by
      rw [ready_is_linked_false_iff, ← countAll_eq_zero_iff, countAll_unlink]
      simp
    by_cases hd : ctx.dispatcher = true
    · have hws1 : workerSum (ready_unlink s ctx) = workerSum s := by
        have hc0 : ∀ i, i < NUM_NICE_LEVELS → (s.rqueue_arr i).count ctx = 0 := by
          intro i hi
          refine List.count_eq_zero_of_not_mem (fun hm => ?_)
          have := hwk i hi ctx hm
          rw [hd] at this
          exact Bool.noConfusion this
        have hadd := workerSum_unlink_add s ctx
        have n0 := hc0 0 (by rw [NUM_NICE_LEVELS_eq]; omega)
        have n1 := hc0 1 (by rw [NUM_NICE_LEVELS_eq]; omega)
        have n2 := hc0 2 (by rw [NUM_NICE_LEVELS_eq]; omega)
        have n3 := hc0 3 (by rw [NUM_NICE_LEVELS_eq]; omega)
        omega
      have hInv2 : Inv (ready_unlink s ctx) :=
        ⟨by rw [hws1]; exact hcnt, hle, hcur1, hnd1, hwk1, hdq1⟩
      have hres := Inv_awakened (ready_unlink s ctx) ctx props hInv2 hnice hfree1
      simpa [property_change, hlinked, hd] using hres
    · have hdf : ctx.dispatcher = false := by simpa using hd
      have hcq4 : (s.rqueue_arr 4).count ctx = 0 := by
        refine List.count_eq_zero_of_not_mem (fun hm => ?_)
        have := hdq ctx (by rw [NUM_NICE_LEVELS_eq]; exact hm)
        rw [hdf] at this
        exact Bool.noConfusion this
      have hws1 : workerSum (ready_unlink s ctx) + 1 = workerSum s := by
        have hadd := workerSum_unlink_add s ctx
        have hsplit := countAll_split s ctx
        omega
      have hInv2 : Inv { ready_unlink s ctx with
          ready_cnt := (ready_unlink s ctx).ready_cnt - 1 } := by
        refine ⟨?_, hle, hcur1, hnd1, hwk1, hdq1⟩
        show s.ready_cnt - 1 = workerSum (ready_unlink s ctx)
        omega
      have hfree2 : ready_is_linked { ready_unlink s ctx with
          ready_cnt := (ready_unlink s ctx).ready_cnt - 1 } ctx = false := hfree1
      have hres := Inv_awakened _ ctx props hInv2 hnice hfree2
      simpa [property_change, hlinked, hd] using hres

theorem Inv_congr (s s2 : AsioScheduler) (hq : s2.rqueue_arr = s.rqueue_arr)
    (hc : s2.ready_cnt = s.ready_cnt) (hl : s2.last_nice_level = s.last_nice_level)
    (h : Inv s) : Inv s2 := by
  obtain ⟨h1, h2, h3, h4, h5, h6⟩ := h
  exact ⟨by simp [workerSum, hq, hc, h1], by rw [hl]; exact h2,
    by rw [hl]; intro i hi; rw [hq]; exact h3 i hi,
    by simpa [allReady, hq] using h4,
    by intro i hi f hf; rw [hq] at hf; exact h5 i hi f hf,
    by intro f hf; rw [hq] at hf; exact h6 f hf⟩

theorem armTimer_rqueue (s : AsioScheduler) (t : Option Nat) :
    (armTimer s t).rqueue_arr = s.rqueue_arr := by
  unfold armTimer
  split <;> rfl

theorem armTimer_ready_cnt (s : AsioScheduler) (t : Option Nat) :
    (armTimer s t).ready_cnt = s.ready_cnt := by
  unfold armTimer
  split <;> rfl

theorem armTimer_last (s : AsioScheduler) (t : Option Nat) :
    (armTimer s t).last_nice_level = s.last_nice_level := by
  unfold armTimer
  split <;> rfl

theorem armTimer_run_one (s : AsioScheduler) (t : Option Nat) :
    (armTimer s t).loop_run_one = s.loop_run_one := by
  unfold armTimer
  split <;> rfl

theorem suspend_until_some_fields (s : AsioScheduler) (t : Option Nat) (s2 : AsioScheduler)
    (h : suspend_until s t = some s2) :
    s2.rqueue_arr = s.rqueue_arr ∧ s2.ready_cnt = s.ready_cnt ∧
      s2.last_nice_level = s.last_nice_level := by
  unfold suspend_until at h
  cases hb : (armTimer s t).loop_run_one with
  | true =>
    rw [hb] at h
    simp at h
  | false =>
    rw [hb] at h
    simp at h
    subst h
    exact ⟨armTimer_rqueue s t, armTimer_ready_cnt s t, armTimer_last s t⟩

theorem notify_fields (s : AsioScheduler) (now : Nat) :
    (notify s now).rqueue_arr = s.rqueue_arr ∧ (notify s now).ready_cnt = s.ready_cnt ∧
      (notify s now).last_nice_level = s.last_nice_level := by
  unfold notify
  split <;> exact ⟨rfl, rfl, rfl⟩

theorem Inv_step {s s2 : AsioScheduler} (hInv : Inv s) (hs : Step s s2) : Inv s2 := by
  cases hs with
  | awakened ctx props hnice hfree => exact Inv_awakened s ctx props hInv hnice hfree
  | pick => exact Inv_pick_next s hInv
  | prop_change ctx props hnice => exact Inv_property_change s ctx props hInv hnice
  | wait_enter => exact Inv_congr s _ rfl rfl rfl hInv
  | wait_exit => exact Inv_congr s _ rfl rfl rfl hInv
  | run_one_enter => exact Inv_congr s _ rfl rfl rfl hInv
  | run_one_exit => exact Inv_congr s _ rfl rfl rfl hInv
  | suspend _ t h =>
    obtain ⟨hq, hc, hl⟩ := suspend_until_some_fields s t s2 h
    exact Inv_congr s s2 hq hc hl hInv
  | reactor_notify now =>
    obtain ⟨hq, hc, hl⟩ := notify_fields s now
    exact Inv_congr s _ hq hc hl hInv
  | timer_release => exact Inv_congr s _ rfl rfl rfl hInv

theorem reachable_Inv {s : AsioScheduler} (h : Reachable s) : Inv s := by
  induction h with
  | base => decide
  | step hr hs ih => exact Inv_step ih hs

theorem workerSum_pos_iff (s : AsioScheduler) :
    0 < workerSum s ↔ ∃ i, i < NUM_NICE_LEVELS ∧ s.rqueue_arr i ≠ [] := by
  constructor
  · intro h
    by_contra hc
    push_neg at hc
    have h0 := hc 0 (by rw [NUM_NICE_LEVELS_eq]; omega)
    have h1 := hc 1 (by rw [NUM_NICE_LEVELS_eq]; omega)
    have h2 := hc 2 (by rw [NUM_NICE_LEVELS_eq]; omega)
    have h3 := hc 3 (by rw [NUM_NICE_LEVELS_eq]; omega)
    simp [workerSum, h0, h1, h2, h3] at h
  · rintro ⟨i, hi, hne⟩
    rw [NUM_NICE_LEVELS_eq] at hi
    have hlen : (s.rqueue_arr i).length ≠ 0 := by
      simpa [List.length_eq_zero] using hne
    interval_cases i <;> simp [workerSum] <;> omega

/-- Claim C3: starting from the empty scheduler, after any sequence of
scheduler steps `ready_cnt_` equals the total number of fibers linked in the
worker queues `0..MAX_NICE_LEVEL` (dispatcher slot excluded), and
`has_ready_fibers()` is true exactly when some worker queue is non-empty. -/
theorem c3_ready_count_invariant :
    ∀ s : AsioScheduler, Reachable s →
      s.ready_cnt = workerSum s ∧
      (has_ready_fibers s = true ↔ ∃ i, i < NUM_NICE_LEVELS ∧ s.rqueue_arr i ≠ []) := by
  intro s hr
  have hInv := reachable_Inv hr
  refine ⟨hInv.1, ?_⟩
  simp only [has_ready_fibers, decide_eq_true_eq]
  rw [hInv.1]
  exact workerSum_pos_iff s

theorem c3_ready_count_invariant_witness :
    initState.ready_cnt = workerSum initState ∧
      (has_ready_fibers initState = true ↔
        ∃ i, i < NUM_NICE_LEVELS ∧ initState.rqueue_arr i ≠ []) :=
  c3_ready_count_invariant initState Reachable.base

/-- Claim C5 (amended): in every reachable scheduler state the scan cursor
`last_nice_level_` never points past an occupied worker level: every queue
strictly below the cursor is empty (and the cursor is at most
`NUM_NICE_LEVELS`).  The original claim, that the cursor is reset to 0
whenever `ready_cnt_` is 0, is refuted by `c5_counterexample`: draining one
level-2 worker leaves the cursor at 2. -/
theorem c5_cursor_bound :
    ∀ s : AsioScheduler, Reachable s →
      (∀ i, i < s.last_nice_level → s.rqueue_arr i = []) ∧
      s.last_nice_level ≤ NUM_NICE_LEVELS := by
  intro s hr
  have hInv := reachable_Inv hr
  exact ⟨hInv.2.2.1, hInv.2.1⟩

theorem c5_cursor_bound_witness :
    (∀ i, i < initState.last_nice_level → initState.rqueue_arr i = []) ∧
      initState.last_nice_level ≤ NUM_NICE_LEVELS :=
  c5_cursor_bound initState Reachable.base

/-- Claim C5 as stated is false: the reachable state `c5cex`, obtained by
awakening one worker at nice level 2 and draining it with `pick_next`, has
`ready_cnt_ = 0` but `last_nice_level_ = 2` (the successful-dequeue branch
deliberately does not reset the cursor). -/
theorem c5_counterexample :
    ¬ (∀ s : AsioScheduler, Reachable s → s.ready_cnt = 0 →
        s.last_nice_level = 0) := by
  intro hclaim
  have hreach : Reachable c5cex := by
    show Reachable ((pick_next (awakened initState (wrk 0) (propsAt 2))).2)
    exact Reachable.step (Reachable.step Reachable.base
      (Step.awakened initState (wrk 0) (propsAt 2) (by decide) (by decide)))
      (Step.pick _)
  have h0 := hclaim c5cex hreach (by decide)
  exact absurd h0 (by decide)

/-- Claim C4 is contradicted by the code: `suspend_until` re-arms the suspend
timer for every finite deadline, with no comparison against the stored
expiry.  Two consecutive `suspend_until(5)` calls from the fresh scheduler
both call `expires_at`/`async_wait`: the re-arm counter ends at 2 (the
comment block inside `suspend_until`, and the matching one in `notify`,
require the second same-deadline call to arm nothing, which would leave it
at 1). -/
theorem c4_rearm_not_skipped :
    ((suspend_until initState (some 5)).bind
        (fun s1 => suspend_until s1 (some 5))).map
      (fun s2 => (s2.rearm_events, s2.suspend_timer)) = some (2, some ⟨5, 1⟩) := by
  decide

/-- Claim C9 as stated is false: `notify` calls `async_wait` first and
`expires_at(now)` second, so the `expires_at` cancels the wait that was just
registered; on a timer with one pending wait the call leaves expiry `now`
with zero pending waits, not a pending wait for the new expiry. -/
theorem c9_counterexample :
    ¬ (∀ (s : AsioScheduler) (now : Nat) (tm : SuspendTimer),
        s.suspend_timer = some tm →
        ∃ tm2, (notify s now).suspend_timer = some tm2 ∧
          tm2.expires = now ∧ 0 < tm2.pending) := by
  intro hclaim
  obtain ⟨tm2, h1, h2, h3⟩ := hclaim c9state 10 ⟨5, 1⟩ rfl
  have he : (notify c9state 10).suspend_timer = some ⟨10, 0⟩ := rfl
  rw [he] at h1
  have h4 : tm2 = ⟨10, 0⟩ := (Option.some.inj h1).symm
  subst h4
  exact absurd h3 (by decide)

/-- Claim C9 (amended): while the suspend timer exists, `notify` first
registers the yield-on-completion handler with `async_wait` and then resets
the expiry to now; the reset cancels every pending wait including the one
just registered, so all of them (`pending + 1` handlers) complete
immediately with `operation_aborted` and afterwards the stored expiry is
`now` with no wait pending.  After the timer is released (shutdown),
`notify` is a no-op. -/
theorem c9_notify_semantics :
    ∀ (s : AsioScheduler) (now : Nat),
      (∀ tm, s.suspend_timer = some tm →
        (notify s now).suspend_timer = some { expires := now, pending := 0 } ∧
        (notify s now).completions =
          s.completions ++ List.replicate (tm.pending + 1) true) ∧
      (s.suspend_timer = none → notify s now = s) := by
  intro s now
  constructor
  · intro tm htm
    simp [notify, htm]
  · intro hnone
    simp [notify, hnone]

theorem c9_notify_semantics_witness :
    (notify c9state 10).suspend_timer = some { expires := 10, pending := 0 } ∧
      (notify c9state 10).completions =
        c9state.completions ++ List.replicate 2 true :=
  (c9_notify_semantics c9state 10).1 ⟨5, 1⟩ rfl

/-- Claim C10 as stated is false in one corner: `property_change` on a
dispatcher context that is not currently linked returns immediately, so the
dispatcher does not end up linked at the dispatcher slot. -/
theorem c10_counterexample :
    ¬ (∀ (s : AsioScheduler) (ctx : Fiber) (props : IoFiberProperties),
        ctx.dispatcher = true →
        ctx ∈ (property_change s ctx props).rqueue_arr (MAX_NICE_LEVEL + 1)) := by
  intro hclaim
  exact absurd (hclaim initState dctx (propsAt 0) rfl) (by decide)

/-- Claim C10 (amended): dispatcher operations never touch worker
accounting.  `awakened` on the dispatcher appends it to the extra slot
`MAX_NICE_LEVEL + 1` regardless of `props.nice_level` and leaves every other
queue, `ready_cnt_`, `last_nice_level_` and `has_ready_fibers()` unchanged;
`property_change` on the dispatcher leaves `ready_cnt_`, `last_nice_level_`
and `has_ready_fibers()` unchanged, re-links it at the dispatcher slot when
it was linked, and is the identity when it was not linked. -/
theorem c10_dispatcher_frame :
    ∀ (s : AsioScheduler) (ctx : Fiber) (props : IoFiberProperties),
      ctx.dispatcher = true →
      (awakened s ctx props).rqueue_arr (MAX_NICE_LEVEL + 1) =
          s.rqueue_arr (MAX_NICE_LEVEL + 1) ++ [ctx] ∧
      (∀ i, i ≠ MAX_NICE_LEVEL + 1 →
        (awakened s ctx props).rqueue_arr i = s.rqueue_arr i) ∧
      (awakened s ctx props).ready_cnt = s.ready_cnt ∧
      (awakened s ctx props).last_nice_level = s.last_nice_level ∧
      has_ready_fibers (awakened s ctx props) = has_ready_fibers s ∧
      (property_change s ctx props).ready_cnt = s.ready_cnt ∧
      (property_change s ctx props).last_nice_level = s.last_nice_level ∧
      has_ready_fibers (property_change s ctx props) = has_ready_fibers s ∧
      (ready_is_linked s ctx = true →
        ctx ∈ (property_change s ctx props).rqueue_arr (MAX_NICE_LEVEL + 1)) ∧
      (ready_is_linked s ctx = false → property_change s ctx props = s) := by
  intro s ctx props hd
  have ha := awakened_disp s ctx props hd
  have hpcfacts : (property_change s ctx props).ready_cnt = s.ready_cnt ∧
      (property_change s ctx props).last_nice_level = s.last_nice_level ∧
      (ready_is_linked s ctx = true →
        ctx ∈ (property_change s ctx props).rqueue_arr (MAX_NICE_LEVEL + 1)) ∧
      (ready_is_linked s ctx = false → property_change s ctx props = s) := by
    by_cases hl : ready_is_linked s ctx = false
    · have hpc : property_change s ctx props = s := by simp [property_change, hl]
      rw [hpc]
      exact ⟨rfl, rfl, fun ht => absurd ht (by rw [hl]; simp), fun _ => rfl⟩
    · have hlt : ready_is_linked s ctx = true := by
        revert hl
        cases ready_is_linked s ctx <;> simp
      have hpc : property_change s ctx props =
          awakened (ready_unlink s ctx) ctx props := by
        simp [property_change, hlt, hd]
      rw [hpc, awakened_disp (ready_unlink s ctx) ctx props hd]
      refine ⟨rfl, rfl, fun _ => ?_, fun hfalse => absurd hlt (by rw [hfalse]; simp)⟩
      show ctx ∈ updq (ready_unlink s ctx).rqueue_arr 4
        ((ready_unlink s ctx).rqueue_arr 4 ++ [ctx]) (MAX_NICE_LEVEL + 1)
      rw [show MAX_NICE_LEVEL + 1 = 4 from rfl, updq_apply_self]
      exact List.mem_append.mpr (Or.inr (List.mem_singleton.mpr rfl))
  refine ⟨?_, ?_, ?_, ?_, ?_, hpcfacts.1, hpcfacts.2.1, ?_, hpcfacts.2.2.1, hpcfacts.2.2.2⟩
  · rw [ha]
    show updq s.rqueue_arr 4 (s.rqueue_arr 4 ++ [ctx]) (MAX_NICE_LEVEL + 1) = _
    rw [show MAX_NICE_LEVEL + 1 = 4 from rfl, updq_apply_self]
  · intro i hi
    rw [ha]
    show updq s.rqueue_arr 4 (s.rqueue_arr 4 ++ [ctx]) i = s.rqueue_arr i
    rw [updq_apply_ne _ _ _ _ (by rw [show MAX_NICE_LEVEL + 1 = 4 from rfl] at hi; exact hi)]
  · rw [ha]
  · rw [ha]
  · rw [ha]
    simp [has_ready_fibers]
  · simp only [has_ready_fibers, hpcfacts.1]

theorem c10_dispatcher_frame_witness :
    (awakened initState dctx (propsAt 2)).rqueue_arr (MAX_NICE_LEVEL + 1) =
        initState.rqueue_arr (MAX_NICE_LEVEL + 1) ++ [dctx] ∧
      (∀ i, i ≠ MAX_NICE_LEVEL + 1 →
        (awakened initState dctx (propsAt 2)).rqueue_arr i = initState.rqueue_arr i) ∧
      (awakened initState dctx (propsAt 2)).ready_cnt = initState.ready_cnt ∧
      (awakened initState dctx (propsAt 2)).last_nice_level =
        initState.last_nice_level ∧
      has_ready_fibers (awakened initState dctx (propsAt 2)) =
        has_ready_fibers initState ∧
      (property_change initState dctx (propsAt 2)).ready_cnt = initState.ready_cnt ∧
      (property_change initState dctx (propsAt 2)).last_nice_level =
        initState.last_nice_level ∧
      has_ready_fibers (property_change initState dctx (propsAt 2)) =
        has_ready_fibers initState ∧
      (ready_is_linked initState dctx = true →
        dctx ∈ (property_change initState dctx
          (propsAt 2)).rqueue_arr (MAX_NICE_LEVEL + 1)) ∧
      (ready_is_linked initState dctx = false →
        property_change initState dctx (propsAt 2) = initState) :=
  c10_dispatcher_frame initState dctx (propsAt 2) rfl

theorem loop_inv {l : LoopState} (h : LoopReachable l) :
    (l.run_one = true → l.phase = LoopPhase.inRunOne) ∧
    (l.suspend = true → l.phase = LoopPhase.inWait) := by
  induction h with
  | base => exact ⟨fun h => Bool.noConfusion h, fun h => Bool.noConfusion h⟩
  | step hr hs ih =>
    cases hs with
    | enterWait r sv =>
      exact ⟨fun hro => LoopPhase.noConfusion (ih.1 hro), fun _ => rfl⟩
    | exitWait r sv =>
      exact ⟨fun hro => LoopPhase.noConfusion (ih.1 hro), fun h => Bool.noConfusion h⟩
    | enterRunOne r sv =>
      exact ⟨fun _ => rfl, fun hsv => LoopPhase.noConfusion (ih.2 hsv)⟩
    | exitRunOneAgain r sv =>
      exact ⟨fun h => Bool.noConfusion h, fun hsv => LoopPhase.noConfusion (ih.2 hsv)⟩
    | exitRunOneDone r sv =>
      exact ⟨fun h => Bool.noConfusion h, fun hsv => LoopPhase.noConfusion (ih.2 hsv)⟩
    | exitLoop r sv =>
      exact ⟨fun hro => LoopPhase.noConfusion (ih.1 hro),
        fun hsv => LoopPhase.noConfusion (ih.2 hsv)⟩

/-- Claim C8: the contract check of `suspend_until` aborts exactly when the
RUN_ONE bit is set at the time of the call, and along the MainLoop control
flow the RUN_ONE and SUSPEND bits are never set simultaneously: RUN_ONE is
set only around the blocking `run_one` call and SUSPEND only while parked in
`WaitTillFibersSuspend`. -/
theorem c8_deadlock_guard :
    (∀ (s : AsioScheduler) (t : Option Nat),
      suspend_until s t = none ↔ s.loop_run_one = true) ∧
    (∀ l : LoopState, LoopReachable l → ¬ (l.run_one = true ∧ l.suspend = true)) := by
  constructor
  · intro s t
    cases hb : s.loop_run_one <;> simp [suspend_until, armTimer_run_one, hb]
  · intro l hl hc
    have hinv := loop_inv hl
    have h1 := hinv.1 hc.1
    have h2 := hinv.2 hc.2
    rw [h1] at h2
    exact LoopPhase.noConfusion h2

theorem c8_deadlock_guard_witness :
    (suspend_until initState none = none ↔ initState.loop_run_one = true) ∧
      ¬ (loopInit.run_one = true ∧ loopInit.suspend = true) :=
  ⟨c8_deadlock_guard.1 initState none, c8_deadlock_guard.2 loopInit LoopReachable.base⟩

/-- Claim C1: in every scheduler state satisfying the reachability invariant
in which some worker queue is non-empty, `pick_next` returns the head of the
lowest-numbered non-empty worker queue; in particular when a level-1 worker
is ready and a level-0 worker is then awakened into an empty level-0 queue,
`pick_next` returns the level-0 worker (`awakened` lowered the scan cursor,
so the lower level is not skipped). -/
theorem c1_strict_priority :
    (∀ (s : AsioScheduler) (m : Nat), Inv s → m < NUM_NICE_LEVELS →
      s.rqueue_arr m ≠ [] → (∀ j, j < m → s.rqueue_arr j = []) →
      (pick_next s).1 = (s.rqueue_arr m).head?) ∧
    (∀ (s : AsioScheduler) (ctx0 ctx1 : Fiber) (p0 p1 : IoFiberProperties),
      Inv s → s.rqueue_arr 0 = [] →
      ready_is_linked s ctx1 = false →
      ready_is_linked (awakened s ctx1 p1) ctx0 = false →
      ctx0.dispatcher = false → ctx1.dispatcher = false →
      p0.nice_level = 0 → p1.nice_level = 1 →
      (pick_next (awakened (awakened s ctx1 p1) ctx0 p0)).1 = some ctx0) := by
  constructor
  · intro s m hInv hm hne hmin
    obtain ⟨hd, tl, hq⟩ := List.exists_cons_of_ne_nil hne
    rw [pick_next_found s m hInv.2.2.1 hm hmin hd tl hq, hq]
    rfl
  · intro s ctx0 ctx1 p0 p1 hInv h0 hl1 hl0 hd0 hd1 hp0 hp1
    have hInv1 : Inv (awakened s ctx1 p1) :=
      Inv_awakened s ctx1 p1 hInv
        (fun _ => by rw [hp1, NUM_NICE_LEVELS_eq]; omega) hl1
    have hInv2 : Inv (awakened (awakened s ctx1 p1) ctx0 p0) :=
      Inv_awakened (awakened s ctx1 p1) ctx0 p0 hInv1
        (fun _ => by rw [hp0, NUM_NICE_LEVELS_eq]; omega) hl0
    have hq0s1 : (awakened s ctx1 p1).rqueue_arr 0 = [] := by
      rw [awakened_worker s ctx1 p1 hd1]
      dsimp only
      rw [updq_apply_ne _ _ _ _ (by rw [hp1]; omega)]
      exact h0
    have hq0 : (awakened (awakened s ctx1 p1) ctx0 p0).rqueue_arr 0 = [ctx0] := by
      rw [awakened_worker (awakened s ctx1 p1) ctx0 p0 hd0]
      dsimp only
      rw [hp0, updq_apply_self, hq0s1]
      rfl
    rw [pick_next_found (awakened (awakened s ctx1 p1) ctx0 p0) 0 hInv2.2.2.1
      (by rw [NUM_NICE_LEVELS_eq]; omega) (fun j hj => absurd hj (Nat.not_lt_zero j))
      ctx0 [] hq0]

theorem c1_strict_priority_witness :
    (pick_next (awakened initState (wrk 1) (propsAt 1))).1 =
      ((awakened initState (wrk 1) (propsAt 1)).rqueue_arr 1).head? :=
  c1_strict_priority.1 (awakened initState (wrk 1) (propsAt 1)) 1
    (by decide) (by decide) (by decide) (by decide)

theorem countAll_ready_cnt_irrel (s : AsioScheduler) (n : Nat) (a : Fiber) :
    countAll { s with ready_cnt := n } a = countAll s a := rfl

/-- Claim C6: for a worker context currently linked in a ready queue,
`property_change` leaves it linked exactly once, namely in the queue of the
new nice level, and leaves `ready_cnt_` unchanged; for a context that is not
linked, `property_change` returns with the scheduler unchanged. -/
theorem c6_property_change_spec :
    (∀ (s : AsioScheduler) (ctx : Fiber) (props : IoFiberProperties),
      Inv s → ctx.dispatcher = false → props.nice_level < NUM_NICE_LEVELS →
      ready_is_linked s ctx = true →
      countAll (property_change s ctx props) ctx = 1 ∧
      ctx ∈ (property_change s ctx props).rqueue_arr props.nice_level ∧
      (property_change s ctx props).ready_cnt = s.ready_cnt) ∧
    (∀ (s : AsioScheduler) (ctx : Fiber) (props : IoFiberProperties),
      ready_is_linked s ctx = false → property_change s ctx props = s) := by
  constructor
  · intro s ctx props hInv hd h4 hlink
    obtain ⟨hcnt, hle, hcur, hnd, hwk, hdq⟩ := hInv
    have hct1 : countAll s ctx = 1 := countAll_one_of_linked s ctx hnd hlink
    have hpc : property_change s ctx props =
        awakened { ready_unlink s ctx with
          ready_cnt := (ready_unlink s ctx).ready_cnt - 1 } ctx props := by
      simp [property_change, hlink, hd]
    have hq4c : (s.rqueue_arr 4).count ctx = 0 := by
      refine List.count_eq_zero_of_not_mem (fun hm => ?_)
      have hx := hdq ctx (by rw [NUM_NICE_LEVELS_eq]; exact hm)
      rw [hd] at hx
      exact Bool.noConfusion hx
    have hready1 : 1 ≤ s.ready_cnt := by
      have hsplit := countAll_split s ctx
      have hle0 := List.count_le_length ctx (s.rqueue_arr 0)
      have hle1 := List.count_le_length ctx (s.rqueue_arr 1)
      have hle2 := List.count_le_length ctx (s.rqueue_arr 2)
      have hle3 := List.count_le_length ctx (s.rqueue_arr 3)
      rw [hcnt]
      unfold workerSum
      omega
    have hca := countAll_awakened { ready_unlink s ctx with
        ready_cnt := (ready_unlink s ctx).ready_cnt - 1 } ctx props ctx (fun _ => h4)
    refine ⟨?_, ?_, ?_⟩
    · rw [hpc, hca, countAll_ready_cnt_irrel, countAll_unlink]
      simp
    · rw [hpc, awakened_worker _ ctx props hd]
      dsimp only
      rw [updq_apply_self]
      exact List.mem_append.mpr (Or.inr (List.mem_singleton.mpr rfl))
    · rw [hpc, awakened_worker _ ctx props hd]
      show (ready_unlink s ctx).ready_cnt - 1 + 1 = s.ready_cnt
      show s.ready_cnt - 1 + 1 = s.ready_cnt
      omega
  · intro s ctx props hfree
    simp [property_change, hfree]

theorem c6_property_change_spec_witness :
    countAll (property_change (awakened initState (wrk 0) (propsAt 1))
        (wrk 0) (propsAt 2)) (wrk 0) = 1 ∧
      wrk 0 ∈ (property_change (awakened initState (wrk 0) (propsAt 1))
        (wrk 0) (propsAt 2)).rqueue_arr (propsAt 2).nice_level ∧
      (property_change (awakened initState (wrk 0) (propsAt 1)) (wrk 0)
        (propsAt 2)).ready_cnt =
        (awakened initState (wrk 0) (propsAt 1)).ready_cnt :=
  c6_property_change_spec.1 (awakened initState (wrk 0) (propsAt 1)) (wrk 0) (propsAt 2)
    (by decide) (by decide) (by decide) (by decide)

theorem pick_step_suspend (s : AsioScheduler) (hInv : Inv s) (hsus : s.loop_suspend = true)
    (hpos : 0 < workerSum s) :
    Inv (pick_next s).2 ∧ (pick_next s).2.loop_suspend = true ∧
    workerSum (pick_next s).2 + 1 = workerSum s ∧
    (pick_next s).2.switch_cnt = s.switch_cnt + 1 ∧
    (pick_next s).2.cnd_signals =
      (if MAIN_SWITCH_LIMIT < s.switch_cnt + 1 then s.cnd_signals + 1
       else s.cnd_signals) ∧
    (pick_next s).2.main_resumes =
      (if MAIN_SWITCH_LIMIT < s.switch_cnt + 1 then s.main_resumes + 1
       else s.main_resumes) := by
  obtain ⟨m, hm, hne, hmin⟩ := exists_min_nonempty s ((workerSum_pos_iff s).mp hpos)
  obtain ⟨hd, tl, hq⟩ := List.exists_cons_of_ne_nil hne
  rw [pick_next_found s m hInv.2.2.1 hm hmin hd tl hq]
  dsimp only
  refine ⟨Inv_postPick s m hInv hm hmin hd tl hq, ?_, ?_, ?_, ?_, ?_⟩
  · rw [postPick_loop_suspend]
    exact hsus
  · exact workerSum_postPick s m hm hd tl hq
  · rw [postPick_switch_cnt, if_pos hsus]
  · rw [postPick_cnd_signals]
    by_cases hlim : MAIN_SWITCH_LIMIT < s.switch_cnt + 1 <;> simp [hsus, hlim]
  · rw [postPick_main_resumes]
    by_cases hlim : MAIN_SWITCH_LIMIT < s.switch_cnt + 1 <;> simp [hsus, hlim]

theorem pickSteps_suspend_spec (k : Nat) : ∀ s : AsioScheduler, Inv s →
    s.loop_suspend = true → k ≤ workerSum s →
    Inv (pickSteps s k) ∧ (pickSteps s k).loop_suspend = true ∧
    workerSum (pickSteps s k) + k = workerSum s ∧
    (pickSteps s k).switch_cnt = s.switch_cnt + k ∧
    (pickSteps s k).cnd_signals = s.cnd_signals +
      ((s.switch_cnt + k) - max s.switch_cnt MAIN_SWITCH_LIMIT) ∧
    (pickSteps s k).main_resumes = s.main_resumes +
      ((s.switch_cnt + k) - max s.switch_cnt MAIN_SWITCH_LIMIT) := by
  induction k with
  | zero =>
    intro s hInv hs _
    refine ⟨hInv, hs, ?_, ?_, ?_, ?_⟩ <;> simp [pickSteps] <;> omega
  | succ n ih =>
    intro s hInv hs hk
    have hpos : 0 < workerSum s := by omega
    obtain ⟨hI2, hs2, hw2, hsw2, hcnd2, hres2⟩ := pick_step_suspend s hInv hs hpos
    obtain ⟨hI3, hs3, hw3, hsw3, hcnd3, hres3⟩ :=
      ih (pick_next s).2 hI2 hs2 (by omega)
    have hps : pickSteps s (n + 1) = pickSteps (pick_next s).2 n := rfl
    rw [hps]
    refine ⟨hI3, hs3, by omega, by rw [hsw3, hsw2]; omega, ?_, ?_⟩
    · rw [hcnd3, hsw2, hcnd2]
      by_cases hlim : MAIN_SWITCH_LIMIT < s.switch_cnt + 1 <;> simp [hlim] <;> omega
    · rw [hres3, hsw2, hres2]
      by_cases hlim : MAIN_SWITCH_LIMIT < s.switch_cnt + 1 <;> simp [hlim] <;> omega

/-- Claim C7: starting from a freshly reset switch counter with the SUSPEND
bit set (MainLoop parked in `WaitTillFibersSuspend`), a run of successful
worker dequeues signals the condition variable (and bumps `main_resumes`)
for the first time exactly on the `(MAIN_SWITCH_LIMIT + 1)`-th dequeue: the
first `MAIN_SWITCH_LIMIT` dequeues signal nothing. -/
theorem c7_main_switch_bound :
    ∀ s : AsioScheduler, Inv s → s.loop_suspend = true → s.switch_cnt = 0 →
      (∀ k, k ≤ MAIN_SWITCH_LIMIT → k ≤ workerSum s →
        (pickSteps s k).cnd_signals = s.cnd_signals ∧
        (pickSteps s k).main_resumes = s.main_resumes) ∧
      (MAIN_SWITCH_LIMIT + 1 ≤ workerSum s →
        (pickSteps s (MAIN_SWITCH_LIMIT + 1)).cnd_signals = s.cnd_signals + 1 ∧
        (pickSteps s (MAIN_SWITCH_LIMIT + 1)).main_resumes = s.main_resumes + 1) := by
  intro s hInv hs h0
  constructor
  · intro k hk hkw
    obtain ⟨_, _, _, _, hcnd, hres⟩ := pickSteps_suspend_spec k s hInv hs hkw
    rw [h0] at hcnd hres
    constructor
    · rw [hcnd]
      rw [MAIN_SWITCH_LIMIT_eq] at hk ⊢
      omega
    · rw [hres]
      rw [MAIN_SWITCH_LIMIT_eq] at hk ⊢
      omega
  · intro hw
    obtain ⟨_, _, _, _, hcnd, hres⟩ :=
      pickSteps_suspend_spec (MAIN_SWITCH_LIMIT + 1) s hInv hs hw
    rw [h0] at hcnd hres
    constructor
    · rw [hcnd]
      rw [MAIN_SWITCH_LIMIT_eq]
      omega
    · rw [hres]
      rw [MAIN_SWITCH_LIMIT_eq]
      omega

theorem c7_main_switch_bound_witness :
    (pickSteps c7state (MAIN_SWITCH_LIMIT + 1)).cnd_signals = c7state.cnd_signals + 1 ∧
      (pickSteps c7state (MAIN_SWITCH_LIMIT + 1)).main_resumes =
        c7state.main_resumes + 1 :=
  (c7_main_switch_bound c7state (by decide) (by decide) (by decide)).2 (by decide)

theorem queue_count_le_countAll (s : AsioScheduler) (a : Fiber) (i : Nat) (hi : i ≤ 4) :
    (s.rqueue_arr i).count a ≤ countAll s a := by
  rw [countAll_split]
  interval_cases i <;> omega

theorem two_queues_count (s : AsioScheduler) (a : Fiber) (i j : Nat)
    (hi : i ≤ 4) (hj : j ≤ 4) (hij : i ≠ j) :
    (s.rqueue_arr i).count a + (s.rqueue_arr j).count a ≤ countAll s a := by
  rw [countAll_split]
  interval_cases i <;> interval_cases j <;> simp at hij ⊢ <;> omega

theorem fifo_aux (n : Nat) : ∀ (t : AsioScheduler) (p : Nat) (A B : Fiber)
    (r : List Fiber),
    Inv t → p < NUM_NICE_LEVELS → A ≠ B →
    t.rqueue_arr p = r ++ [A, B] →
    ∀ u v, pickTrace t n = u ++ B :: v → A ∈ u := by
  induction n with
  | zero =>
    intro t p A B r _ _ _ _ u v h
    exact absurd h (by simp [pickTrace])
  | succ n ih =>
    intro t p A B r hInv hp hAB hqp u v htr
    have hnd := hInv.2.2.2.1
    have hpne : t.rqueue_arr p ≠ [] := by
      rw [hqp]
      simp
    obtain ⟨m, hm, hne, hmin⟩ := exists_min_nonempty t ⟨p, hp, hpne⟩
    obtain ⟨hd, tl, hq⟩ := List.exists_cons_of_ne_nil hne
    have hpick := pick_next_found t m hInv.2.2.1 hm hmin hd tl hq
    have hInv2 : Inv (postPick t m) := Inv_postPick t m hInv hm hmin hd tl hq
    have hmp : m ≤ p := by
      by_contra hc
      push_neg at hc
      rw [hmin p hc] at hqp
      exact absurd hqp.symm (by simp)
    have htr2 : pickTrace t (n + 1) = hd :: pickTrace (postPick t m) n := by
      simp [pickTrace, hpick]
    rw [htr2] at htr
    have hBp : B ∈ t.rqueue_arr p := by
      rw [hqp]
      simp
    rcases Nat.lt_or_ge m p with hlt | hge
    · have hdB : hd ≠ B := by
        intro he
        subst he
        have h1 : 1 ≤ (t.rqueue_arr m).count hd :=
          List.count_pos_iff.mpr (by rw [hq]; simp)
        have h2 : 1 ≤ (t.rqueue_arr p).count hd := List.count_pos_iff.mpr hBp
        have h3 := two_queues_count t hd m p
          (by rw [NUM_NICE_LEVELS_eq] at hm; omega)
          (by rw [NUM_NICE_LEVELS_eq] at hp; omega) (by omega)
        have h4 : countAll t hd ≤ 1 := List.nodup_iff_count_le_one.mp hnd hd
        omega
      cases u with
      | nil =>
        rw [List.nil_append] at htr
        injection htr with h1 _
        exact absurd h1 hdB
      | cons x u2 =>
        rw [List.cons_append] at htr
        injection htr with _ htr3
        have hqp2 : (postPick t m).rqueue_arr p = r ++ [A, B] := by
          rw [postPick_rqueue_arr, updq_apply_ne _ _ _ _ (by omega)]
          exact hqp
        exact List.mem_cons_of_mem x (ih (postPick t m) p A B r hInv2 hp hAB hqp2 u2 v htr3)
    · have hmeq : m = p := by omega
      subst hmeq
      rw [hqp] at hq
      cases r with
      | nil =>
        rw [List.nil_append] at hq
        injection hq with hA htl
        cases u with
        | nil =>
          rw [List.nil_append] at htr
          injection htr with h1 _
          exact absurd (hA.trans h1) hAB
        | cons x u2 =>
          rw [List.cons_append] at htr
          injection htr with h1 _
          rw [← h1, ← hA]
          exact List.mem_cons_self _ _
      | cons a r2 =>
        rw [List.cons_append] at hq
        injection hq with hhd htl
        have haB : hd ≠ B := by
          intro he
          have hc1 : 1 ≤ ((r2 ++ [A, B]) : List Fiber).count B :=
            List.count_pos_iff.mpr (by simp)
          have hc2 : 2 ≤ (t.rqueue_arr m).count B := by
            have haeq : a = B := hhd.trans he
            rw [hqp, List.cons_append, haeq, List.count_cons_self]
            omega
          have hc3 := queue_count_le_countAll t B m (by rw [NUM_NICE_LEVELS_eq] at hm; omega)
          have hc4 : countAll t B ≤ 1 := List.nodup_iff_count_le_one.mp hnd B
          omega
        cases u with
        | nil =>
          rw [List.nil_append] at htr
          injection htr with h1 _
          exact absurd h1 haB
        | cons x u2 =>
          rw [List.cons_append] at htr
          injection htr with _ htr3
          have hqp2 : (postPick t m).rqueue_arr m = r2 ++ [A, B] := by
            rw [postPick_rqueue_arr, updq_apply_self, hqp, List.cons_append]
            rfl
          exact List.mem_cons_of_mem x
            (ih (postPick t m) m A B r2 hInv2 hp hAB hqp2 u2 v htr3)

/-- Claim C2: FIFO within one nice level.  After `awakened(A)` then
`awakened(B)` at an equal nice level, with neither linked beforehand, any
run of consecutive `pick_next` calls returns A strictly before B: wherever
the trace of returned fibers contains B, A occurs at an earlier position
(`awakened` appends at the tail, `pick_next` pops the head). -/
theorem c2_fifo_within_level :
    ∀ (s : AsioScheduler) (ctxA ctxB : Fiber) (pA pB : IoFiberProperties),
      Inv s → ctxA.dispatcher = false → ctxB.dispatcher = false →
      ready_is_linked s ctxA = false → ready_is_linked s ctxB = false →
      ctxA ≠ ctxB → pA.nice_level < NUM_NICE_LEVELS →
      pB.nice_level = pA.nice_level →
      ∀ n u v,
        pickTrace (awakened (awakened s ctxA pA) ctxB pB) n = u ++ ctxB :: v →
        ctxA ∈ u := by
  intro s A B pA pB hInv hdA hdB hlA hlB hAB h4 hpB n u v htr
  have hInv1 : Inv (awakened s A pA) := Inv_awakened s A pA hInv (fun _ => h4) hlA
  have hlB1 : ready_is_linked (awakened s A pA) B = false :=
    linked_awakened_false s A B pA (fun _ => h4) hlB (Ne.symm hAB)
  have hInv2 : Inv (awakened (awakened s A pA) B pB) :=
    Inv_awakened (awakened s A pA) B pB hInv1 (fun _ => by rw [hpB]; exact h4) hlB1
  have hq1 : (awakened s A pA).rqueue_arr pA.nice_level =
      s.rqueue_arr pA.nice_level ++ [A] := by
    rw [awakened_worker s A pA hdA]
    dsimp only
    rw [updq_apply_self]
  have hq2 : (awakened (awakened s A pA) B pB).rqueue_arr pA.nice_level =
      s.rqueue_arr pA.nice_level ++ [A, B] := by
    rw [awakened_worker (awakened s A pA) B pB hdB]
    dsimp only
    rw [hpB, updq_apply_self, hq1]
    simp
  exact fifo_aux n (awakened (awakened s A pA) B pB) pA.nice_level A B
    (s.rqueue_arr pA.nice_level) hInv2 h4 hAB hq2 u v htr

theorem c2_fifo_within_level_witness :
    wrk 0 ∈ [wrk 0] :=
  c2_fifo_within_level initState (wrk 0) (wrk 1) (propsAt 2) (propsAt 2)
    (by decide) rfl rfl (by decide) (by decide) (by decide) (by decide) rfl
    2 [wrk 0] [] (by decide)

end Gaia
